import Mathlib

/-!
Verification of the speech I/O core of the M5Stack Core2 voice assistant
(adaptive VAD, keyword spotter, uplink streamer, downlink playback engine)
against its natural-language specification.

The definitions below are shallow embeddings of the C++ source:
pure computations become Lean functions, the stateful components become
explicit state-passing functions, machine integers become `Int`/`Nat` with
explicit wrapping where the C++ semantics wraps, and C++ faults (division
by zero) are represented by `Option` results.
-/

namespace VoiceCore

/-! ## Adaptive voice-activity detector (src/main.cpp, detect_voice_activity)

The detector keeps three pieces of `static` state: the learned noise floor,
the number of warm-up frames seen, and the running sum of their average
energies.  Samples are signed 16-bit values.  Times, counts and energies are
32/64-bit in C++; frame lengths are far too small for any of those to
overflow, so they are embedded as unbounded `Int`/`Nat`. -/

/-- Twos-complement wrap of an integer value into the `int16_t` range, as
happens on the ESP32 when a wider value is stored into an `int16_t`. -/
def toInt16 (x : ℤ) : ℤ := (x + 32768) % 65536 - 32768

/-- `int16_t sample = abs(audio_buffer[i]);` — `abs` is computed at `int`
width and the result stored back into `int16_t`, so `abs(-32768) = 32768`
wraps back to `-32768`. -/
def absSample (s : ℤ) : ℤ := toInt16 |s|

/-- An audio frame: the list of int16 samples handed to the detector. -/
abbrev Frame := List ℤ

/-- A frame whose samples are genuine int16 values. -/
def int16Frame (f : Frame) : Prop := ∀ s ∈ f, -32768 ≤ s ∧ s ≤ 32767

instance (f : Frame) : Decidable (int16Frame f) := by
  unfold int16Frame; infer_instance

/-- `energy += sample` summed over the frame (int64 accumulator). -/
def frameEnergy (f : Frame) : ℤ := (f.map absSample).sum

/-- `if (sample > max_amplitude) max_amplitude = sample`, starting from 0. -/
def frameMaxAmplitude (f : Frame) : ℤ :=
  (f.map absSample).foldl (fun m s => if s > m then s else m) 0

/-- `avg_energy = energy / samples` (C++ integer division truncates
toward zero, which is `Int.tdiv`). -/
def frameAvgEnergy (f : Frame) : ℤ := Int.tdiv (frameEnergy f) (f.length : ℤ)

/-- `#define VAD_BASE_THRESHOLD 600` -/
def VAD_BASE_THRESHOLD : ℤ := 600

/-- `#define VAD_NOISE_SAMPLES 50` -/
def VAD_NOISE_SAMPLES : ℕ := 50

/-- The `static` state of `detect_voice_activity`. -/
structure VadState where
  noise_floor : ℤ
  noise_samples_count : ℕ
  noise_sum : ℤ
  deriving Repr, DecidableEq

/-- All three statics are zero-initialised. -/
def vadInit : VadState := ⟨0, 0, 0⟩

/-- One call of `detect_voice_activity(audio_buffer, samples)`.

`none` models the fault in the unguarded `energy / samples` when
`samples = 0` (division by zero, undefined behaviour in C++): the function
has no zero-length guard, unlike the unused `extract_audio_features`,
which checks `samples == 0` explicitly. -/
def detect_voice_activity (st : VadState) (f : Frame) :
    Option (Bool × VadState) :=
  if f.length = 0 then none
  else
    let avg_energy := frameAvgEnergy f
    let max_amplitude := frameMaxAmplitude f
    if st.noise_samples_count < VAD_NOISE_SAMPLES then
      -- learning phase: accumulate, freeze the floor on the 50th frame
      let noise_sum := st.noise_sum + avg_energy
      let cnt := st.noise_samples_count + 1
      let nf :=
        if cnt = VAD_NOISE_SAMPLES then Int.tdiv noise_sum (VAD_NOISE_SAMPLES : ℤ)
        else st.noise_floor
      some (false, ⟨nf, cnt, noise_sum⟩)
    else
      let adaptive_threshold := st.noise_floor + VAD_BASE_THRESHOLD
      let max_threshold := Int.tdiv adaptive_threshold 2
      let energy_check := decide (avg_energy > adaptive_threshold)
      let amplitude_check := decide (max_amplitude > max_threshold)
      -- `max_amplitude > avg_energy * 1.1` is evaluated in `double`; for the
      -- int16-derived range of both operands this coincides exactly with the
      -- rational comparison.
      let ratio_check := decide ((max_amplitude : ℚ) > (avg_energy : ℚ) * 1.1)
      some (energy_check || (amplitude_check && ratio_check), st)

/-- Feeding a list of frames through the detector, collecting the results. -/
def runVad (st : VadState) : List Frame → Option (List Bool × VadState)
  | [] => some ([], st)
  | f :: fs =>
    match detect_voice_activity st f with
    | none => none
    | some (b, st1) =>
      match runVad st1 fs with
      | none => none
      | some (bs, st2) => some (b :: bs, st2)

/-! Helper lemmas for the VAD. -/

theorem detect_nonempty_learning (st : VadState) (f : Frame)
    (hne : f ≠ []) (hc : st.noise_samples_count < VAD_NOISE_SAMPLES) :
    detect_voice_activity st f =
      some (false,
        ⟨if st.noise_samples_count + 1 = VAD_NOISE_SAMPLES then
            Int.tdiv (st.noise_sum + frameAvgEnergy f) (VAD_NOISE_SAMPLES : ℤ)
          else st.noise_floor,
         st.noise_samples_count + 1,
         st.noise_sum + frameAvgEnergy f⟩) := by
  unfold detect_voice_activity
  rw [if_neg (by simpa using hne), if_pos hc]

theorem detect_nonempty_frozen (st : VadState) (f : Frame)
    (hne : f ≠ []) (hc : ¬ st.noise_samples_count < VAD_NOISE_SAMPLES) :
    detect_voice_activity st f =
      some (decide (frameAvgEnergy f > st.noise_floor + VAD_BASE_THRESHOLD) ||
              (decide (frameMaxAmplitude f >
                 Int.tdiv (st.noise_floor + VAD_BASE_THRESHOLD) 2) &&
               decide ((frameMaxAmplitude f : ℚ) > (frameAvgEnergy f : ℚ) * 1.1)),
            st) := by
  unfold detect_voice_activity
  rw [if_neg (by simpa using hne), if_neg hc]

/-- During warm-up the detector always answers `false` and on the 50th frame
freezes the floor at the truncated mean of the accumulated sum. -/
theorem runVad_learning (fs : List Frame) (st : VadState)
    (hne : ∀ f ∈ fs, f ≠ [])
    (hlen : st.noise_samples_count + fs.length = VAD_NOISE_SAMPLES)
    (hpos : 0 < fs.length) :
    runVad st fs =
      some (List.replicate fs.length false,
        ⟨Int.tdiv (st.noise_sum + ((fs.map frameAvgEnergy).sum)) (VAD_NOISE_SAMPLES : ℤ),
         VAD_NOISE_SAMPLES,
         st.noise_sum + (fs.map frameAvgEnergy).sum⟩) := by
  induction fs generalizing st with
  | nil => simp at hpos
  | cons f fs ih =>
    have hc : st.noise_samples_count < VAD_NOISE_SAMPLES := by
      simp only [List.length_cons] at hlen; omega
    have hf : f ≠ [] := hne f (by simp)
    rw [runVad, detect_nonempty_learning st f hf hc]
    rcases List.eq_nil_or_concat fs with hnil | _
    · subst hnil
      have h50 : st.noise_samples_count + 1 = VAD_NOISE_SAMPLES := by
        simp only [List.length_cons, List.length_nil] at hlen; omega
      simp [runVad, h50]
    · have hfsne : fs ≠ [] := by
        rcases fs with _ | _
        · simp_all
        · simp
      have hlen2 : (⟨if st.noise_samples_count + 1 = VAD_NOISE_SAMPLES then
            Int.tdiv (st.noise_sum + frameAvgEnergy f) (VAD_NOISE_SAMPLES : ℤ)
          else st.noise_floor,
         st.noise_samples_count + 1,
         st.noise_sum + frameAvgEnergy f⟩ : VadState).noise_samples_count + fs.length
           = VAD_NOISE_SAMPLES := by
        simp only [List.length_cons] at hlen; simp; omega
      dsimp only
      rw [ih _ (fun g hg => hne g (by simp [hg])) hlen2
            (by simpa [List.length_pos] using hfsne)]
      simp [List.replicate_succ, add_assoc]

/-- Once frozen (count at 50), the detector state never changes again on
non-empty frames. -/
theorem runVad_frozen (fs : List Frame) (st : VadState)
    (hne : ∀ f ∈ fs, f ≠ [])
    (hc : ¬ st.noise_samples_count < VAD_NOISE_SAMPLES) :
    ∃ bs, runVad st fs = some (bs, st) := by
  induction fs with
  | nil => exact ⟨[], rfl⟩
  | cons f fs ih =>
    obtain ⟨bs, hbs⟩ := ih (fun g hg => hne g (by simp [hg]))
    rw [runVad, detect_nonempty_frozen st f (hne f (by simp)) hc]
    dsimp only
    rw [hbs]
    exact ⟨_, rfl⟩

/-- Claim C5: the spec asserts that a zero-length frame is handled locally
by returning the safe default "no voice".  The code has no such guard:
`detect_voice_activity` computes `avg_energy = energy / samples` before any
length check, so a zero-sample frame reaches the division with divisor
zero — a fault (modelled as `none`), not a safe `false`.  The guarded
branch exists only in the unused `extract_audio_features`. -/
theorem vad_zero_length_frame_faults (st : VadState) :
    detect_voice_activity st [] = none := rfl

/-- Claim C6: after warm-up, the detector computes `adaptive_threshold =
noise_floor + 600` and `max_threshold = adaptive_threshold / 2`, and reports
voice exactly when `avg_energy > adaptive_threshold` or (`max_amplitude >
max_threshold` and `max_amplitude > avg_energy * 1.1`); consequently any
frame with `avg_energy > noise_floor + 600` yields true, and after 50
zero-amplitude warm-up frames (noise floor 0) a frame with average energy
700 yields true. -/
theorem vad_decision_rule_after_warmup (st : VadState) (f : Frame)
    (hwarm : VAD_NOISE_SAMPLES ≤ st.noise_samples_count) (hne : f ≠ []) :
    (detect_voice_activity st f =
      some (decide (frameAvgEnergy f > st.noise_floor + VAD_BASE_THRESHOLD ∨
              (frameMaxAmplitude f > Int.tdiv (st.noise_floor + VAD_BASE_THRESHOLD) 2 ∧
               (frameMaxAmplitude f : ℚ) > (frameAvgEnergy f : ℚ) * 1.1)), st)) ∧
    (frameAvgEnergy f > st.noise_floor + VAD_BASE_THRESHOLD →
      detect_voice_activity st f = some (true, st)) ∧
    (runVad vadInit (List.replicate 50 ([0] : Frame)) =
        some (List.replicate 50 false, ⟨0, 50, 0⟩) ∧
      detect_voice_activity ⟨0, 50, 0⟩ [700] = some (true, ⟨0, 50, 0⟩)) := by
  have hfrozen := detect_nonempty_frozen st f hne (by omega)
  refine ⟨?_, ?_, by decide, by decide⟩
  · rw [hfrozen]
    simp [Bool.decide_or, Bool.decide_and]
  · intro h
    rw [hfrozen]
    simp [h]

/-- Witness for C6 at a concrete post-warm-up state and frame. -/
theorem vad_decision_rule_after_warmup_witness :
    VAD_NOISE_SAMPLES ≤ (50 : ℕ) ∧ (([700] : Frame) ≠ []) ∧
      detect_voice_activity ⟨0, 50, 0⟩ [700] = some (true, ⟨0, 50, 0⟩) :=
  ⟨by decide, by decide,
    (vad_decision_rule_after_warmup ⟨0, 50, 0⟩ [700] (by decide) (by decide)).2.1
      (by decide)⟩

/-- Claim C7: for any sequence of at least 50 non-empty frames fed from the
initial state, the detector answers "no voice" on each of the first 50
frames, after the 50th frame the noise floor equals the (integer) mean of
the average energies of the first 50 frames, and the detector state — the noise
floor included — never changes on any later frame. -/
theorem vad_warmup_determinism (fs : List Frame)
    (hlen : 50 ≤ fs.length) (hne : ∀ f ∈ fs, f ≠ []) :
    ∃ st50 : VadState,
      runVad vadInit (fs.take 50) = some (List.replicate 50 false, st50) ∧
      st50.noise_floor = Int.tdiv (((fs.take 50).map frameAvgEnergy).sum) 50 ∧
      st50.noise_samples_count = 50 ∧
      ∃ bs, runVad st50 (fs.drop 50) = some (bs, st50) := by
  have htk : (fs.take 50).length = 50 := by
    simp [List.length_take]; omega
  have hrun := runVad_learning (fs.take 50) vadInit
    (fun f hf => hne f (List.mem_of_mem_take hf))
    (by simpa [vadInit, VAD_NOISE_SAMPLES] using htk)
    (by omega)
  refine ⟨_, by rw [hrun, htk], by simp [vadInit, VAD_NOISE_SAMPLES], rfl, ?_⟩
  exact runVad_frozen (fs.drop 50) _
    (fun f hf => hne f (List.mem_of_mem_drop hf)) (by simp [VAD_NOISE_SAMPLES])

/-- Witness for C7: 50 warm-up frames of silence followed by a loud frame. -/
theorem vad_warmup_determinism_witness :
    ∃ st50 : VadState,
      runVad vadInit ((List.replicate 50 ([0] : Frame) ++ [[700]]).take 50) =
        some (List.replicate 50 false, st50) ∧
      st50.noise_floor =
        Int.tdiv ((((List.replicate 50 ([0] : Frame) ++ [[700]]).take 50).map
          frameAvgEnergy).sum) 50 ∧
      st50.noise_samples_count = 50 ∧
      ∃ bs, runVad st50 ((List.replicate 50 ([0] : Frame) ++ [[700]]).drop 50) =
        some (bs, st50) :=
  vad_warmup_determinism _ (by simp) (by
    intro f hf
    simp only [List.mem_append, List.mem_replicate, List.mem_singleton] at hf
    rcases hf with ⟨_, h⟩ | h <;> simp [h])

/-! ## Keyword spotter (src/main.cpp, class KeywordDetector)

`processDetection` first appends the incoming samples to the circular
buffer, then steps a four-state machine whose transitions are driven by the
boolean outcome of `detectKeywordPattern()` and by elapsed tick time.  The
pattern predicate reads only the buffer contents; its outcome (and the
confidence value it stores) is passed in as the input of a step, which
embeds the `switch` verbatim.  One FreeRTOS tick is 1 ms on this target, so
`pdMS_TO_TICKS(1000) = 1000`. -/

/-- `keyword_state_t` -/
inductive KeywordState
  | listening
  | detecting
  | confirmed
  | timedOut
  deriving Repr, DecidableEq

/-- `#define KEYWORD_BUFFER_SIZE 32000` -/
def KEYWORD_BUFFER_SIZE : ℕ := 32000

/-- The `KeywordDetector` fields.  The circular buffer feeds only
`detectKeywordPattern`, so it is tracked through its write position and
fill count. -/
structure KeywordDetector where
  buffer_size : ℕ
  buffer_pos : ℕ
  samples_collected : ℕ
  state : KeywordState
  detection_start : ℕ
  confidence : ℚ
  keyword_detected : Bool
  deriving Repr, DecidableEq

/-- The constructed detector (allocation succeeded). -/
def kdInit : KeywordDetector :=
  ⟨KEYWORD_BUFFER_SIZE, 0, 0, .listening, 0, 0, false⟩

/-- `addSamples(samples, count)`: the per-sample loop advances the write
position modulo the capacity and saturates the fill count at the capacity;
iterated over `count` samples that is a modular add and a `min`. -/
def addSamples (kd : KeywordDetector) (count : ℕ) : KeywordDetector :=
  if kd.buffer_size = 0 then kd
  else { kd with
    buffer_pos := (kd.buffer_pos + count) % kd.buffer_size,
    samples_collected := min (kd.samples_collected + count) kd.buffer_size }

theorem addSamples_state (kd : KeywordDetector) (count : ℕ) :
    (addSamples kd count).state = kd.state := by
  unfold addSamples; split <;> rfl

theorem addSamples_detection_start (kd : KeywordDetector) (count : ℕ) :
    (addSamples kd count).detection_start = kd.detection_start := by
  unfold addSamples; split <;> rfl

/-- One call of `processDetection(audio_samples, sample_count)` at tick time
`now`; `pattern` and `conf` are the boolean outcome and the confidence that
`detectKeywordPattern()` computes from the buffer whenever the switch
invokes it (only the Listening and Detecting branches do). -/
def processDetection (kd : KeywordDetector) (count now : ℕ)
    (pattern : Bool) (conf : ℚ) : Bool × KeywordDetector :=
  let kd1 := addSamples kd count
  match kd1.state with
  | .listening =>
    if pattern then
      (false, { kd1 with state := .detecting, detection_start := now,
                         confidence := conf })
    else (false, { kd1 with confidence := conf })
  | .detecting =>
    if pattern then
      (true, { kd1 with state := .confirmed, keyword_detected := true,
                        confidence := conf })
    else if now - kd1.detection_start > 1000 then
      (false, { kd1 with state := .listening, confidence := conf })
    else (false, { kd1 with confidence := conf })
  | .confirmed => (false, kd1)
  | .timedOut => (false, { kd1 with state := .listening })

/-- `reset()`. -/
def kreset (kd : KeywordDetector) : KeywordDetector :=
  { kd with state := .listening, keyword_detected := false, confidence := 0,
            buffer_pos := 0, samples_collected := 0 }

/-- Claim C8: from Listening a pattern match moves to Detecting and records
the detection start time; from Detecting a second match within 1 s moves to
Confirmed, and the call reports true exactly at a Detecting-state match;
from Detecting, a non-matching call more than 1 s after the detection start
returns to Listening; Confirmed is terminal under `processDetection`; and
`reset()` returns to Listening clearing the detection flag, the confidence
and the collected-sample bookkeeping. -/
theorem keyword_state_machine (kd : KeywordDetector) (count now : ℕ) (conf : ℚ) :
    (kd.state = .listening →
       (processDetection kd count now true conf).2.state = .detecting ∧
       (processDetection kd count now true conf).2.detection_start = now ∧
       (processDetection kd count now true conf).1 = false) ∧
    (kd.state = .detecting → now - kd.detection_start ≤ 1000 →
       (processDetection kd count now true conf).2.state = .confirmed ∧
       (processDetection kd count now true conf).2.keyword_detected = true) ∧
    (∀ pattern : Bool,
       (processDetection kd count now pattern conf).1 = true ↔
         (kd.state = .detecting ∧ pattern = true)) ∧
    (kd.state = .detecting → now - kd.detection_start > 1000 →
       (processDetection kd count now false conf).2.state = .listening ∧
       (processDetection kd count now false conf).1 = false) ∧
    (∀ pattern : Bool, kd.state = .confirmed →
       (processDetection kd count now pattern conf).2 = addSamples kd count ∧
       (processDetection kd count now pattern conf).2.state = .confirmed) ∧
    ((kreset kd).state = .listening ∧ (kreset kd).keyword_detected = false ∧
     (kreset kd).confidence = 0 ∧ (kreset kd).buffer_pos = 0 ∧
     (kreset kd).samples_collected = 0) := by
  refine ⟨?_, ?_, ?_, ?_, ?_, by simp [kreset]⟩
  · intro h
    simp [processDetection, addSamples_state, h]
  · intro h _
    simp [processDetection, addSamples_state, h]
  · intro pattern
    rcases hs : kd.state <;>
      rcases pattern <;>
        simp [processDetection, addSamples_state, hs, addSamples_detection_start] <;>
          split <;> simp
  · intro h ht
    simp [processDetection, addSamples_state, addSamples_detection_start, h, ht]
  · intro pattern h
    simp [processDetection, addSamples_state, h]

/-- Witness for C8: a two-burst pattern confirms within the 1 s window. -/
theorem keyword_state_machine_witness :
    (processDetection kdInit 100 0 true (1/2)).2.state = .detecting ∧
    (processDetection (processDetection kdInit 100 0 true (1/2)).2
       100 500 true (1/2)).1 = true := by
  have h1 := (keyword_state_machine kdInit 100 0 (1/2)).1 rfl
  refine ⟨h1.1, ?_⟩
  exact ((keyword_state_machine (processDetection kdInit 100 0 true (1/2)).2
    100 500 (1/2)).2.2.1 true).mpr ⟨h1.1, rfl⟩

/-! ## Uplink streamer (src/main.cpp, record_and_stream_audio)

The capture-and-send loop reads microphone frames, debounces the VAD
(recording starts after 2 consecutive voiced frames), accumulates bytes in
a 4096-byte stream buffer, flushes a full buffer as one transport call
tagged `is_first_chunk`/`is_last_chunk`, and ends the cycle on a 2 s
silence timeout or the 10 s maximum recording duration.  Ticks are 1 ms.
The loop body runs only on reads with `bytes_read > 0`. -/

/-- One transport call made through `stream_audio_chunk`: body length in
bytes and the `is_first_chunk` / `is_last_chunk` header markers. -/
structure SentCall where
  bytes : ℕ
  first : Bool
  final : Bool
  deriving Repr, DecidableEq

/-- A processed microphone read: `bytes_read` bytes at tick `t`, classified
by the VAD as voiced or not. -/
structure MicFrame where
  size : ℕ
  voice : Bool
  t : ℕ
  deriving Repr, DecidableEq

/-- `#define STREAM_CHUNK_SIZE 4096` -/
def STREAM_CHUNK_SIZE : ℕ := 4096

/-- `#define SILENCE_TIMEOUT_MS 2000` -/
def SILENCE_TIMEOUT_MS : ℕ := 2000

/-- `RECORDING_DURATION_SEC * 1000` -/
def RECORDING_DURATION_MS : ℕ := 10000

/-- `#define VAD_MIN_CONSECUTIVE 2` -/
def VAD_MIN_CONSECUTIVE : ℕ := 2

/-- The loop-local state of `record_and_stream_audio`, plus the trace of
transport calls it has made. -/
structure UpState where
  consecutive_voice_count : ℕ
  recording_started : Bool
  is_first : Bool
  stream_buffer_pos : ℕ
  last_voice_time : ℕ
  recording_start_time : ℕ
  sent : List SentCall
  deriving Repr, DecidableEq

def upInit : UpState := ⟨0, false, true, 0, 0, 0, []⟩

/-- How a capture cycle ended. -/
inductive UpEnd
  | silence
  | maxDuration
  deriving Repr, DecidableEq

/-- Outcome of processing one frame. -/
inductive UpStep
  | cont (s : UpState)
  | ended (s : UpState) (r : UpEnd)
  deriving Repr, DecidableEq

/-- The VAD-debounce block at the top of the loop body.  The source first
possibly starts recording, then stamps `last_voice_time` whenever recording
is (now) started; the two sequential conditionals are expanded into their
three disjoint cases. -/
def upVadPhase (s : UpState) (f : MicFrame) : UpState :=
  if f.voice then
    let cvc := s.consecutive_voice_count + 1
    if ¬ s.recording_started ∧ VAD_MIN_CONSECUTIVE ≤ cvc then
      -- recording starts on this frame, so the last-voice stamp is taken too
      { s with consecutive_voice_count := cvc, recording_started := true,
               recording_start_time := f.t, stream_buffer_pos := 0,
               last_voice_time := f.t }
    else if s.recording_started then
      { s with consecutive_voice_count := cvc, last_voice_time := f.t }
    else { s with consecutive_voice_count := cvc }
  else { s with consecutive_voice_count := 0 }

/-- The copy-into-stream-buffer block, flushing a full 4096-byte buffer as
one non-final transport call and keeping the remainder. -/
def upCopyPhase (s : UpState) (size : ℕ) : UpState :=
  let bytes_to_copy :=
    if STREAM_CHUNK_SIZE < s.stream_buffer_pos + size then
      STREAM_CHUNK_SIZE - s.stream_buffer_pos
    else size
  let pos := s.stream_buffer_pos + bytes_to_copy
  if STREAM_CHUNK_SIZE ≤ pos then
    let s1 := { s with
      sent := s.sent ++ [⟨STREAM_CHUNK_SIZE, s.is_first, false⟩],
      stream_buffer_pos := 0, is_first := false }
    let remaining := size - bytes_to_copy
    if 0 < remaining then { s1 with stream_buffer_pos := remaining } else s1
  else { s with stream_buffer_pos := pos }

/-- The end-of-cycle checks: silence timeout (flush the partial buffer, or
send the empty end marker only when a chunk was already sent), then the
maximum-duration check. -/
def upEndPhase (s : UpState) (f : MicFrame) : UpStep :=
  if ¬ f.voice ∧ SILENCE_TIMEOUT_MS < f.t - s.last_voice_time then
    if 0 < s.stream_buffer_pos then
      .ended { s with sent := s.sent ++ [⟨s.stream_buffer_pos, false, true⟩] }
        .silence
    else if ¬ s.is_first then
      .ended { s with sent := s.sent ++ [⟨0, false, true⟩] } .silence
    else .ended s .silence
  else if RECORDING_DURATION_MS < f.t - s.recording_start_time then
    if 0 < s.stream_buffer_pos then
      .ended { s with sent := s.sent ++ [⟨s.stream_buffer_pos, false, true⟩] }
        .maxDuration
    else .ended s .maxDuration
  else .cont s

/-- One iteration of the streaming loop body on a frame with
`bytes_read > 0`. -/
def upStep (s : UpState) (f : MicFrame) : UpStep :=
  let s1 := upVadPhase s f
  if s1.recording_started then upEndPhase (upCopyPhase s1 f.size) f
  else .cont s1

/-- Outcome of a whole capture cycle over a list of frames. -/
inductive UpResult
  | ended (s : UpState) (r : UpEnd)
  | running (s : UpState)
  deriving Repr, DecidableEq

def runUp (s : UpState) : List MicFrame → UpResult
  | [] => .running s
  | f :: fs =>
    match upStep s f with
    | .cont s1 => runUp s1 fs
    | .ended s1 r => .ended s1 r

/-- Frames the loop actually processes: a positive number of bytes, and no
larger than the stream buffer (the code reads at most `BUFFER_SIZE * 2 =
2048` bytes per iteration). -/
def upSizeOK (f : MicFrame) : Prop := 0 < f.size ∧ f.size ≤ STREAM_CHUNK_SIZE

/-- Loop invariant of the streaming loop: the partial buffer is never full
at an iteration boundary, every call sent so far was a non-final streaming
chunk, `is_first_chunk` is set exactly while nothing has been sent, once
recording has started an untouched `is_first_chunk` implies buffered data,
and before recording starts nothing has been buffered or sent. -/
def upInv (s : UpState) : Prop :=
  s.stream_buffer_pos < STREAM_CHUNK_SIZE ∧
  (∀ c ∈ s.sent, c.final = false) ∧
  (s.is_first = true ↔ s.sent = []) ∧
  (s.recording_started = true → s.is_first = true → 0 < s.stream_buffer_pos) ∧
  (s.recording_started = false →
    s.stream_buffer_pos = 0 ∧ s.sent = [] ∧ s.is_first = true)

theorem upVadPhase_fields (s : UpState) (f : MicFrame) :
    (upVadPhase s f).sent = s.sent ∧
    (upVadPhase s f).is_first = s.is_first ∧
    ((upVadPhase s f).stream_buffer_pos = s.stream_buffer_pos ∨
      (upVadPhase s f).stream_buffer_pos = 0) ∧
    (s.recording_started = true → (upVadPhase s f).recording_started = true ∧
      (upVadPhase s f).stream_buffer_pos = s.stream_buffer_pos) ∧
    ((upVadPhase s f).recording_started = false →
      s.recording_started = false) := by
  unfold upVadPhase
  by_cases hv : f.voice = true <;>
    by_cases hr : s.recording_started = true <;>
      by_cases h2 : VAD_MIN_CONSECUTIVE ≤ s.consecutive_voice_count + 1 <;>
        simp_all <;>
          (rw [if_neg (show ¬ VAD_MIN_CONSECUTIVE ≤
              s.consecutive_voice_count + 1 by omega)]; simp)

theorem upCopyPhase_spec (s : UpState) (size : ℕ)
    (hpos : s.stream_buffer_pos < STREAM_CHUNK_SIZE)
    (hsz : 0 < size) (hle : size ≤ STREAM_CHUNK_SIZE) :
    (upCopyPhase s size).stream_buffer_pos < STREAM_CHUNK_SIZE ∧
    (upCopyPhase s size).recording_started = s.recording_started ∧
    (upCopyPhase s size).last_voice_time = s.last_voice_time ∧
    (upCopyPhase s size).recording_start_time = s.recording_start_time ∧
    (((upCopyPhase s size).sent = s.sent ∧
      (upCopyPhase s size).is_first = s.is_first ∧
      (upCopyPhase s size).stream_buffer_pos = s.stream_buffer_pos + size ∧
      0 < (upCopyPhase s size).stream_buffer_pos) ∨
     ((upCopyPhase s size).sent =
        s.sent ++ [⟨STREAM_CHUNK_SIZE, s.is_first, false⟩] ∧
      (upCopyPhase s size).is_first = false)) := by
  unfold upCopyPhase STREAM_CHUNK_SIZE
  unfold STREAM_CHUNK_SIZE at hle hpos
  rcases Nat.lt_or_ge 4096 (s.stream_buffer_pos + size) with hgt | hge
  · -- overfull read: flush 4096 bytes and keep the remainder
    have hbtc : (if 4096 < s.stream_buffer_pos + size then
        4096 - s.stream_buffer_pos else size) = 4096 - s.stream_buffer_pos :=
      if_pos hgt
    rw [hbtc, if_pos (show 4096 ≤ s.stream_buffer_pos +
        (4096 - s.stream_buffer_pos) by omega),
      if_pos (show 0 < size - (4096 - s.stream_buffer_pos) by omega)]
    refine ⟨by dsimp only; omega, by simp, by simp, by simp, Or.inr ⟨by simp, by simp⟩⟩
  · have hbtc : (if 4096 < s.stream_buffer_pos + size then
        4096 - s.stream_buffer_pos else size) = size := if_neg (by omega)
    rcases Nat.eq_or_lt_of_le hge with heq | hlt
    · -- exact fill: flush, nothing remains
      rw [hbtc, if_pos (show 4096 ≤ s.stream_buffer_pos + size by omega),
        if_neg (show ¬ 0 < size - size by omega)]
      refine ⟨by dsimp only; omega, by simp, by simp, by simp, Or.inr ⟨by simp, by simp⟩⟩
    · -- buffer keeps filling
      rw [hbtc, if_neg (show ¬ 4096 ≤ s.stream_buffer_pos + size by omega)]
      exact ⟨by dsimp only; omega, by simp, by simp, by simp,
        Or.inl ⟨by simp, by simp, by simp, by dsimp only; omega⟩⟩

theorem upEndPhase_ended (s s1 : UpState) (f : MicFrame) (r : UpEnd)
    (h : upEndPhase s f = .ended s1 r) :
    (0 < s.stream_buffer_pos ∧
      s1 = { s with sent := s.sent ++ [⟨s.stream_buffer_pos, false, true⟩] }) ∨
    (s.stream_buffer_pos = 0 ∧ s.is_first = false ∧
      s1 = { s with sent := s.sent ++ [⟨0, false, true⟩] }) ∨
    (s.stream_buffer_pos = 0 ∧ s1 = s) := by
  unfold upEndPhase at h
  split_ifs at h <;> cases h <;> simp_all <;> omega

theorem upEndPhase_cont (s s1 : UpState) (f : MicFrame)
    (h : upEndPhase s f = .cont s1) : s1 = s := by
  unfold upEndPhase at h
  split_ifs at h <;> cases h <;> rfl

theorem upStep_cont_inv (s s1 : UpState) (f : MicFrame)
    (hinv : upInv s) (hf : upSizeOK f) (h : upStep s f = .cont s1) :
    upInv s1 := by
  obtain ⟨hpos, hsent, hfirst, hstarted, hnot⟩ := hinv
  obtain ⟨hv1, hv2, hv3, _, hv5⟩ := upVadPhase_fields s f
  unfold upStep at h
  dsimp only at h
  by_cases hst : (upVadPhase s f).recording_started = true
  · rw [if_pos hst] at h
    have hvpos : (upVadPhase s f).stream_buffer_pos < STREAM_CHUNK_SIZE := by
      rcases hv3 with h3 | h3 <;> rw [h3]
      · exact hpos
      · unfold STREAM_CHUNK_SIZE; omega
    obtain ⟨hc1, hc2, _, _, hc5⟩ :=
      upCopyPhase_spec (upVadPhase s f) f.size hvpos hf.1 hf.2
    have hs1 : s1 = upCopyPhase (upVadPhase s f) f.size := upEndPhase_cont _ _ _ h
    subst hs1
    refine ⟨hc1, ?_, ?_, ?_, ?_⟩
    · rcases hc5 with ⟨h5, _, _, _⟩ | ⟨h5, _⟩ <;> rw [h5]
      · rw [hv1]; exact hsent
      · intro c hc
        rw [hv1] at hc
        rcases List.mem_append.mp hc with hc | hc
        · exact hsent c hc
        · simp at hc; rw [hc]
    · rcases hc5 with ⟨h5, h6, _, _⟩ | ⟨h5, h6⟩ <;> rw [h5, h6]
      · rw [hv1, hv2]; exact hfirst
      · rw [hv1]; simp
    · rcases hc5 with ⟨_, h6, _, h8⟩ | ⟨_, h6⟩ <;> rw [h6]
      · intro _ _; exact h8
      · intro _ hcontra; cases hcontra
    · rw [hc2]; intro hcontra; rw [hst] at hcontra; cases hcontra
  · rw [if_neg hst] at h
    cases h
    have hold : s.recording_started = false :=
      hv5 (Bool.not_eq_true _ ▸ hst)
    obtain ⟨hp0, hs0, hf0⟩ := hnot hold
    refine ⟨?_, ?_, ?_, ?_, ?_⟩
    · rcases hv3 with h3 | h3 <;> rw [h3]
      · exact hpos
      · unfold STREAM_CHUNK_SIZE; omega
    · rw [hv1]; exact hsent
    · rw [hv1, hv2]; exact hfirst
    · intro hcontra; rw [Bool.not_eq_true] at hst; rw [hst] at hcontra
      cases hcontra
    · intro _
      refine ⟨?_, by rw [hv1, hs0], by rw [hv2, hf0]⟩
      rcases hv3 with h3 | h3
      · rw [h3]; exact hp0
      · rw [h3]

instance (f : MicFrame) : Decidable (upSizeOK f) := by
  unfold upSizeOK; infer_instance

instance (s : UpState) : Decidable (upInv s) := by
  unfold upInv; infer_instance

/-- What a cycle-ending step guarantees about the final call trace. -/
def upEndSpec (s : UpState) : Prop :=
  (s.sent.filter (fun c => !c.final) = [] →
    ∃ n, 0 < n ∧ s.sent = [⟨n, false, true⟩]) ∧
  (∀ c ∈ s.sent, c.bytes = 0 → c.final = true →
    s.sent.filter (fun c => !c.final) ≠ [])

theorem upStep_ended_spec (s s1 : UpState) (f : MicFrame) (r : UpEnd)
    (hinv : upInv s) (hf : upSizeOK f) (h : upStep s f = .ended s1 r) :
    upEndSpec s1 := by
  obtain ⟨hpos, hsent, hfirst, _, _⟩ := hinv
  obtain ⟨hv1, hv2, hv3, _, _⟩ := upVadPhase_fields s f
  unfold upStep at h
  dsimp only at h
  by_cases hst : (upVadPhase s f).recording_started = true
  · rw [if_pos hst] at h
    have hvpos : (upVadPhase s f).stream_buffer_pos < STREAM_CHUNK_SIZE := by
      rcases hv3 with h3 | h3 <;> rw [h3]
      · exact hpos
      · unfold STREAM_CHUNK_SIZE; omega
    obtain ⟨_, _, _, _, hc5⟩ :=
      upCopyPhase_spec (upVadPhase s f) f.size hvpos hf.1 hf.2
    -- facts about the state the end-phase checks see
    have hA : ∀ c ∈ (upCopyPhase (upVadPhase s f) f.size).sent, c.final = false := by
      rcases hc5 with ⟨h5, _, _, _⟩ | ⟨h5, _⟩ <;> rw [h5, hv1]
      · exact hsent
      · intro c hc
        rcases List.mem_append.mp hc with hc | hc
        · exact hsent c hc
        · simp at hc; rw [hc]
    have hB : (upCopyPhase (upVadPhase s f) f.size).is_first = true ↔
        (upCopyPhase (upVadPhase s f) f.size).sent = [] := by
      rcases hc5 with ⟨h5, h6, _, _⟩ | ⟨h5, h6⟩ <;> rw [h5, h6]
      · rw [hv1, hv2]; exact hfirst
      · rw [hv1]; simp
    have hC : (upCopyPhase (upVadPhase s f) f.size).is_first = true →
        0 < (upCopyPhase (upVadPhase s f) f.size).stream_buffer_pos := by
      rcases hc5 with ⟨_, h6, _, h8⟩ | ⟨_, h6⟩ <;> rw [h6]
      · intro _; exact h8
      · intro hcontra; cases hcontra
    have hfeq : (upCopyPhase (upVadPhase s f) f.size).sent.filter
        (fun c => !c.final) = (upCopyPhase (upVadPhase s f) f.size).sent :=
      List.filter_eq_self.mpr (fun c hc => by simp [hA c hc])
    rcases upEndPhase_ended _ _ _ _ h with
      ⟨hp, hs1⟩ | ⟨hp, hif, hs1⟩ | ⟨hp, hs1⟩ <;> subst hs1
    · -- final flush of the non-empty partial buffer
      refine ⟨?_, ?_⟩
      · intro hflt
        dsimp only at hflt ⊢
        rw [List.filter_append, hfeq, List.filter_cons_of_neg (by simp),
          List.filter_nil, List.append_nil] at hflt
        exact ⟨_, hp, by rw [hflt, List.nil_append]⟩
      · intro c hc hb hfin
        dsimp only at hc
        rcases List.mem_append.mp hc with hc2 | hc2
        · rw [hA c hc2] at hfin; cases hfin
        · simp only [List.mem_singleton] at hc2
          rw [hc2] at hb
          simp only at hb
          omega
    · -- empty end marker: sent only when a chunk was already streamed
      refine ⟨?_, ?_⟩
      · intro hflt
        dsimp only at hflt
        rw [List.filter_append, hfeq, List.filter_cons_of_neg (by simp),
          List.filter_nil, List.append_nil] at hflt
        have hcontra := hB.mpr hflt
        rw [hif] at hcontra; cases hcontra
      · intro c hc hb hfin
        dsimp only
        rw [List.filter_append, hfeq, List.filter_cons_of_neg (by simp),
          List.filter_nil, List.append_nil]
        intro hemp
        have hcontra := hB.mpr hemp
        rw [hif] at hcontra; cases hcontra
    · -- ended with an empty buffer and no marker: a chunk had been streamed
      have hif : (upCopyPhase (upVadPhase s f) f.size).is_first = false := by
        cases hq : (upCopyPhase (upVadPhase s f) f.size).is_first
        · rfl
        · have := hC hq; omega
      refine ⟨?_, ?_⟩
      · intro hflt
        rw [hfeq] at hflt
        have hcontra := hB.mpr hflt
        rw [hif] at hcontra; cases hcontra
      · intro c hc hb hfin
        rw [hA c hc] at hfin; cases hfin
  · rw [if_neg hst] at h
    cases h

theorem upInit_inv : upInv upInit := by decide

theorem runUp_ended_spec (fs : List MicFrame) :
    ∀ s0 : UpState, upInv s0 → (∀ f ∈ fs, upSizeOK f) →
      ∀ s r, runUp s0 fs = .ended s r → upEndSpec s := by
  induction fs with
  | nil => intro s0 _ _ s r h; cases h
  | cons f fs ih =>
    intro s0 hinv hsz s r h
    rw [runUp] at h
    cases hstep : upStep s0 f with
    | cont s1 =>
      rw [hstep] at h
      dsimp only at h
      exact ih s1 (upStep_cont_inv _ _ _ hinv (hsz f (by simp)) hstep)
        (fun g hg => hsz g (by simp [hg])) s r h
    | ended s1 r1 =>
      rw [hstep] at h
      dsimp only at h
      cases h
      exact upStep_ended_spec _ _ _ _ hinv (hsz f (by simp)) hstep

/-- A concrete capture cycle: a 200-byte voiced frame at t = 0 and t = 10
(recording starts on the second), then a silent frame at t = 2500 that
trips the 2 s silence timeout with 400 bytes buffered and nothing yet
streamed. -/
def upCexFrames : List MicFrame :=
  [⟨200, true, 0⟩, ⟨200, true, 10⟩, ⟨200, false, 2500⟩]

/-- Claim C4 counterexample: in this cycle no chunk is ever sent before the
end (every transport call in the trace is terminal), the cycle ends by the
silence timeout, yet the single terminal call carries the 400 buffered
bytes — not the empty body the claim requires.  The code sends the empty
end marker only under `!is_first_chunk`, i.e. only when a chunk *was*
already sent. -/
theorem uplink_empty_end_marker_cex :
    runUp upInit upCexFrames =
      UpResult.ended ⟨0, true, true, 400, 10, 10, [⟨400, false, true⟩]⟩
        UpEnd.silence ∧
    List.filter (fun c => !c.final) [(⟨400, false, true⟩ : SentCall)] = [] ∧
    List.all [(⟨400, false, true⟩ : SentCall)] (fun c => c.bytes != 0) = true :=
  ⟨by decide, by decide, by decide⟩

/-- Claim C4 (amended): when a capture cycle ends (silence timeout or
maximum duration) and no streaming chunk was ever sent during it, exactly
one terminal transport call is made, tagged `is_last_chunk = true`, and its
body is the NON-empty partial buffer (the code never sends an empty body in
this situation); dually, an empty-bodied terminal call occurs only in
cycles in which some chunk had already been streamed. -/
theorem uplink_end_marker_amended (fs : List MicFrame)
    (hsz : ∀ f ∈ fs, upSizeOK f) (s : UpState) (r : UpEnd)
    (hrun : runUp upInit fs = .ended s r) :
    (s.sent.filter (fun c => !c.final) = [] →
      ∃ n, 0 < n ∧ s.sent = [⟨n, false, true⟩]) ∧
    (∀ c ∈ s.sent, c.bytes = 0 → c.final = true →
      s.sent.filter (fun c => !c.final) ≠ []) :=
  runUp_ended_spec fs upInit upInit_inv hsz s r hrun

/-- Witness for the amended C4 on the concrete cycle above. -/
theorem uplink_end_marker_amended_witness :
    ∃ n, 0 < n ∧
      (⟨0, true, true, 400, 10, 10, [⟨400, false, true⟩]⟩ : UpState).sent =
        [⟨n, false, true⟩] :=
  (uplink_end_marker_amended upCexFrames (by decide)
    ⟨0, true, true, 400, 10, 10, [⟨400, false, true⟩]⟩ UpEnd.silence
    (by decide)).1 (by decide)

/-! ## Downlink playback engine (src/unnamed/part_004)

The WebSocket thread offers inbound binary frames to a 128 KB FreeRTOS
ring buffer (`xRingbufferSend` with a zero-tick timeout); a dedicated task
pre-buffers two chunks, then pulls chunks and queues them to the speaker,
polling `M5.Speaker.isPlaying(0)` (0 = not playing, 1 = playing with room,
2 = queue full) before each pull.  The concurrent environment (arrivals,
control messages, task stop, speaker status) is modelled as an explicit
per-iteration input.  The FreeRTOS ring buffer is an external primitive;
its acceptance test is modelled as plain byte capacity (per-item header
overhead not modelled), its FIFO behaviour as a list. -/

/-- `enum PlaybackState` -/
inductive PB
  | idle
  | receiving
  | playing
  | draining
  | complete
  deriving Repr, DecidableEq

/-- `enum DeviceState` (the session state machine). -/
inductive DeviceState
  | boot
  | connectingWifi
  | connectingServer
  | ready
  | listening
  | processing
  | transcribing
  | speaking
  | error
  deriving Repr, DecidableEq

/-- An opaque binary audio chunk: its list of byte values. -/
abbrev Chunk := List ℕ

/-- `RING_BUFFER_SIZE` (128 KB). -/
def RING_BUFFER_SIZE : ℕ := 131072

/-- `PLAYBACK_BUFFER_SIZE` (largest chunk a play buffer can hold). -/
def PLAYBACK_BUFFER_SIZE : ℕ := 8192

/-- `PREBUFFER_CHUNKS` -/
def PREBUFFER_CHUNKS : ℕ := 2

/-- `CHUNK_TIMEOUT` (stalled-stream timeout, ms). -/
def CHUNK_TIMEOUT : ℕ := 2000

/-- Bytes currently held in the ring buffer. -/
def queueBytes (q : List Chunk) : ℕ := (q.map List.length).sum

/-- Whether `xRingbufferSend` can accept the chunk (byte capacity). -/
def ringAccepts (q : List Chunk) (c : Chunk) : Bool :=
  decide (queueBytes q + c.length ≤ RING_BUFFER_SIZE)

/-- `buffer_audio_chunk_to_ringbuf`: a zero-timeout (non-blocking) send;
returns the new queue and whether the chunk was accepted.  A missing ring
buffer (`audio_ring_buffer == nullptr`) refuses the chunk. -/
def buffer_audio_chunk_to_ringbuf (bufExists : Bool) (q : List Chunk)
    (c : Chunk) : List Chunk × Bool :=
  if !bufExists then (q, false)
  else if ringAccepts q c then (q ++ [c], true) else (q, false)

/-- Offering a whole sequence of chunks in arrival order. -/
def offerAll (q : List Chunk) (cs : List Chunk) : List Chunk :=
  cs.foldl (fun acc c => (buffer_audio_chunk_to_ringbuf true acc c).1) q

/-- The `WStype_BIN` branch of `webSocketEvent`: the frame is offered to
the ring buffer only in the Receiving/Playing/Draining playback states;
the device state and the playback state themselves are not touched. -/
def binFrameEvent (ds : DeviceState) (ps : PB) (bufExists : Bool)
    (q : List Chunk) (c : Chunk) : DeviceState × PB × List Chunk :=
  if ps = .receiving ∨ ps = .playing ∨ ps = .draining then
    (ds, ps, (buffer_audio_chunk_to_ringbuf bufExists q c).1)
  else (ds, ps, q)

/-- The `audio_complete` branch of `handle_transcription_message`. -/
def handleAudioComplete (ps : PB) : PB :=
  if ps = .receiving ∨ ps = .playing then .draining else ps

/-- Result of the bounded speaker-queue wait before each pull. -/
inductive WaitRes
  | room
  | stopped
  | timeout
  deriving Repr, DecidableEq

/-- The `while (wait_attempts < MAX_WAIT_ATTEMPTS)` poll loop: status 0
aborts (speaker stopped), 1 gives room, anything else waits 5 ms and
retries; 200 polls exhaust the bounded wait.  An exhausted status list is
read as the sink never reporting again, i.e. a timeout. -/
def waitRoom (ss : List ℕ) (fuel : ℕ) : WaitRes :=
  match fuel, ss with
  | 0, _ => .timeout
  | _ + 1, [] => .timeout
  | fuel + 1, s :: rest =>
    if s = 0 then .stopped
    else if s = 1 then .room
    else waitRoom rest fuel

/-- `MAX_WAIT_ATTEMPTS` -/
def MAX_WAIT_ATTEMPTS : ℕ := 200

/-- State of the playback task main loop, with the trace of chunks handed
to the speaker. -/
structure LoopState where
  queue : List Chunk
  played : List Chunk
  pstate : PB
  running : Bool
  msSinceChunk : ℕ
  deriving Repr, DecidableEq

/-- What the concurrent environment does before one loop iteration:
chunks the network thread offers to the ring buffer, an `audio_complete`
control message, a task-stop request, and the speaker statuses the
iteration will poll. -/
structure EnvStep where
  statuses : List ℕ
  arrivals : List Chunk
  drain : Bool
  stop : Bool
  deriving Repr, DecidableEq

/-- Why the main loop was left (all of these reach the `playback_done` /
`break` teardown that sets `PLAYBACK_COMPLETE`). -/
inductive ExitReason
  | stoppedTask
  | completeSeen
  | speakerStopped
  | waitTimeout
  | oversize
  | drainDone
  | chunkTimeout
  deriving Repr, DecidableEq

inductive IterOut
  | cont (s : LoopState)
  | exit (s : LoopState) (r : ExitReason)
  deriving Repr, DecidableEq

/-- Effects of the concurrent environment, applied at the iteration
boundary. -/
def applyEnv (s : LoopState) (e : EnvStep) : LoopState :=
  { s with
    running := s.running && !e.stop,
    pstate := if e.drain then handleAudioComplete s.pstate else s.pstate,
    queue := offerAll s.queue e.arrivals }

/-- One iteration of the main playback loop.  The stall clock advances by
150 ms per empty poll (the 100 ms ring-buffer receive timeout plus the
50 ms delay); a dequeued chunk resets it, as `last_chunk_time = millis()`
does. -/
def mainIter (s0 : LoopState) (e : EnvStep) : IterOut :=
  let s := applyEnv s0 e
  if ¬ s.running = true then .exit s .stoppedTask
  else if s.pstate = .complete then .exit s .completeSeen
  else
    match waitRoom e.statuses MAX_WAIT_ATTEMPTS with
    | .stopped => .exit s .speakerStopped
    | .timeout => .exit s .waitTimeout
    | .room =>
      match s.queue with
      | c :: rest =>
        if PLAYBACK_BUFFER_SIZE < c.length then
          .exit { s with queue := rest } .oversize
        else
          .cont { s with queue := rest, played := s.played ++ [c],
                         msSinceChunk := 0 }
      | [] =>
        if s.pstate = .draining then .exit s .drainDone
        else if CHUNK_TIMEOUT < s.msSinceChunk then .exit s .chunkTimeout
        else .cont { s with msSinceChunk := s.msSinceChunk + 150 }

/-- Leaving the loop falls through `playback_done`: wait for the speaker to
finish and set `playback_state = PLAYBACK_COMPLETE`. -/
def finishTask (s : LoopState) : LoopState := { s with pstate := .complete }

/-- Running the main loop under an environment schedule; `none` means the
schedule was exhausted with the loop still running. -/
def runMain : List EnvStep → LoopState → LoopState × Option ExitReason
  | [], s => (s, none)
  | e :: es, s =>
    match mainIter s e with
    | .cont s1 => runMain es s1
    | .exit s1 r => (finishTask s1, some r)

/-- A nominal drain-phase environment step: the sink reports room, no new
chunks arrive, no control changes. -/
def drainStep : EnvStep := ⟨[1], [], false, false⟩

theorem runMain_append (es1 es2 : List EnvStep) (s : LoopState) :
    runMain (es1 ++ es2) s =
      match runMain es1 s with
      | (s1, none) => runMain es2 s1
      | (s1, some r) => (s1, some r) := by
  induction es1 generalizing s with
  | nil => rfl
  | cons e es ih =>
    rw [List.cons_append, runMain, runMain]
    cases mainIter s e with
    | cont s1 => exact ih s1
    | exit s1 r => rfl

theorem waitRoom_one : waitRoom [1] MAX_WAIT_ATTEMPTS = .room := rfl

theorem mainIter_drain (c : Chunk) (rest p : List Chunk) (ms : ℕ)
    (hc : c.length ≤ PLAYBACK_BUFFER_SIZE) :
    mainIter ⟨c :: rest, p, .draining, true, ms⟩ drainStep =
      .cont ⟨rest, p ++ [c], .draining, true, 0⟩ := by
  have hclen : ¬ PLAYBACK_BUFFER_SIZE < c.length := by omega
  simp [mainIter, applyEnv, drainStep, offerAll, handleAudioComplete,
    waitRoom_one, hclen]

theorem runMain_drain_steps (k : ℕ) (qs p : List Chunk) (ms : ℕ)
    (hsz : ∀ c ∈ qs, c.length ≤ PLAYBACK_BUFFER_SIZE)
    (hk : k ≤ qs.length) :
    runMain (List.replicate k drainStep) ⟨qs, p, .draining, true, ms⟩ =
      (⟨qs.drop k, p ++ qs.take k, .draining, true,
        if k = 0 then ms else 0⟩, none) := by
  induction k generalizing qs p ms with
  | zero => simp [runMain]
  | succ k ih =>
    rcases qs with _ | ⟨c, rest⟩
    · simp at hk
    · rw [List.replicate_succ, runMain,
        mainIter_drain c rest p ms (hsz c (by simp))]
      dsimp only
      rw [ih rest (p ++ [c]) 0 (fun d hd => hsz d (by simp [hd]))
        (by simpa using hk)]
      simp

theorem runMain_drain_full (qs p : List Chunk) (ms : ℕ)
    (hsz : ∀ c ∈ qs, c.length ≤ PLAYBACK_BUFFER_SIZE) :
    ∃ msf, runMain (List.replicate (qs.length + 1) drainStep)
        ⟨qs, p, .draining, true, ms⟩ =
      (⟨[], p ++ qs, .complete, true, msf⟩, some .drainDone) := by
  rw [List.replicate_succ', runMain_append,
    runMain_drain_steps qs.length qs p ms hsz (le_refl _)]
  dsimp only
  rw [List.drop_length, List.take_length]
  refine ⟨if qs.length = 0 then ms else 0, ?_⟩
  simp [runMain, mainIter, applyEnv, drainStep, offerAll,
    handleAudioComplete, waitRoom_one, finishTask]

/-- Claim C1: once the session has received `audio_complete` (the handler
moves Receiving/Playing to Draining), the playback task keeps dequeuing
chunks and handing each to the audio sink while the sink reports room:
after any k ≤ N of the nominal steps the first k chunks have been played in
order and the state is still Draining (never Complete while the queue is
non-empty), and on the step that finds the queue empty — and only then —
the loop exits through the drain-done branch and the state becomes
Complete, with all N chunks delivered to the sink in order. -/
theorem drain_completeness (qs : List Chunk)
    (hsz : ∀ c ∈ qs, c.length ≤ PLAYBACK_BUFFER_SIZE) :
    (handleAudioComplete .playing = .draining ∧
     handleAudioComplete .receiving = .draining ∧
     handleAudioComplete .idle = .idle) ∧
    (∀ k, k ≤ qs.length →
      runMain (List.replicate k drainStep) ⟨qs, [], .draining, true, 0⟩ =
        (⟨qs.drop k, qs.take k, .draining, true, 0⟩, none)) ∧
    (∃ msf, runMain (List.replicate (qs.length + 1) drainStep)
        ⟨qs, [], .draining, true, 0⟩ =
      (⟨[], qs, .complete, true, msf⟩, some .drainDone)) := by
  refine ⟨⟨rfl, rfl, rfl⟩, ?_, ?_⟩
  · intro k hk
    rw [runMain_drain_steps k qs [] 0 hsz hk]
    simp
  · obtain ⟨msf, h⟩ := runMain_drain_full qs [] 0 hsz
    exact ⟨msf, by simpa using h⟩

/-- Witness for C1: three concrete chunks injected before `audio_complete`
are all delivered, in order, before the state becomes Complete. -/
theorem drain_completeness_witness :
    runMain (List.replicate 2 drainStep)
        ⟨[[0, 1], [2], [3, 4, 5]], [], .draining, true, 0⟩ =
      (⟨[[3, 4, 5]], [[0, 1], [2]], .draining, true, 0⟩, none) ∧
    ∃ msf, runMain (List.replicate 4 drainStep)
        ⟨[[0, 1], [2], [3, 4, 5]], [], .draining, true, 0⟩ =
      (⟨[], [[0, 1], [2], [3, 4, 5]], .complete, true, msf⟩,
        some .drainDone) :=
  ⟨by
    have h := (drain_completeness [[0, 1], [2], [3, 4, 5]]
      (by decide)).2.1 2 (by decide)
    simpa using h,
   by
    have h := (drain_completeness [[0, 1], [2], [3, 4, 5]]
      (by decide)).2.2
    simpa using h⟩

theorem waitRoom_room_spec (n : ℕ) :
    ∀ ss : List ℕ, (∀ x ∈ ss, x ≤ 2) → waitRoom ss n = .room →
      ∃ k, k < n ∧ ss[k]? = some 1 ∧ ∀ j, j < k → ss[j]? = some 2 := by
  induction n with
  | zero => intro ss _ h; simp [waitRoom] at h
  | succ n ih =>
    intro ss hw h
    rcases ss with _ | ⟨s, rest⟩
    · simp [waitRoom] at h
    · rw [waitRoom] at h
      by_cases h0 : s = 0
      · rw [if_pos h0] at h; cases h
      · rw [if_neg h0] at h
        by_cases h1 : s = 1
        · exact ⟨0, by omega, by simp [h1], fun j hj => absurd hj (by omega)⟩
        · rw [if_neg h1] at h
          obtain ⟨k, hk, hg1, hg2⟩ :=
            ih rest (fun x hx => hw x (by simp [hx])) h
          have hs2 : s = 2 := by
            have := hw s (by simp); omega
          refine ⟨k + 1, by omega, by simpa using hg1, ?_⟩
          intro j hj
          rcases j with _ | j
          · simp [hs2]
          · simpa using hg2 j (by omega)

theorem waitRoom_all_full (m : ℕ) :
    ∀ n, waitRoom (List.replicate m 2) n = .timeout := by
  induction m with
  | zero => intro n; cases n <;> rfl
  | succ m ih =>
    intro n
    cases n with
    | zero => rfl
    | succ n => rw [List.replicate_succ, waitRoom]; simpa using ih n

/-- Claim C3: before each pull the loop polls the sink queue.  (i) If the
bounded wait never sees "room", the iteration neither dequeues a chunk nor
plays anything — the state is exactly the environment-updated one — and the
loop exits to teardown.  (ii) A pull happens only after a poll sequence of
"queue full" reports followed by a "room" report, all within the 200-poll
bound: a chunk is never dequeued while the sink reports full.  (iii) A
"not playing" report (status 0) is fatal: the task stops pulling — the rest
of the schedule is ignored, the queue is left untouched — and proceeds to
teardown with the state Complete.  (iv) The wait is bounded: a sink that
only ever reports "queue full" yields a timeout, not an unbounded wait. -/
theorem playback_backpressure (s : LoopState) (e : EnvStep)
    (hrun : (applyEnv s e).running = true)
    (hnc : ¬ (applyEnv s e).pstate = .complete) :
    (waitRoom e.statuses MAX_WAIT_ATTEMPTS ≠ .room →
      mainIter s e = .exit (applyEnv s e) .speakerStopped ∨
      mainIter s e = .exit (applyEnv s e) .waitTimeout) ∧
    ((∀ x ∈ e.statuses, x ≤ 2) →
      waitRoom e.statuses MAX_WAIT_ATTEMPTS = .room →
      ∃ k, k < MAX_WAIT_ATTEMPTS ∧ e.statuses[k]? = some 1 ∧
        ∀ j, j < k → e.statuses[j]? = some 2) ∧
    (waitRoom e.statuses MAX_WAIT_ATTEMPTS = .stopped →
      ∀ es, runMain (e :: es) s =
        (finishTask (applyEnv s e), some .speakerStopped)) ∧
    (∀ m, waitRoom (List.replicate m 2) MAX_WAIT_ATTEMPTS = .timeout) := by
  have hstop : waitRoom e.statuses MAX_WAIT_ATTEMPTS = .stopped →
      mainIter s e = .exit (applyEnv s e) .speakerStopped := by
    intro hw
    simp only [mainIter]
    simp [hrun, hnc, hw]
  have htime : waitRoom e.statuses MAX_WAIT_ATTEMPTS = .timeout →
      mainIter s e = .exit (applyEnv s e) .waitTimeout := by
    intro hw
    simp only [mainIter]
    simp [hrun, hnc, hw]
  refine ⟨?_, fun hw h => waitRoom_room_spec _ e.statuses hw h, ?_,
    fun m => waitRoom_all_full m _⟩
  · intro hnr
    cases hw : waitRoom e.statuses MAX_WAIT_ATTEMPTS with
    | room => exact absurd hw hnr
    | stopped => exact Or.inl (hstop hw)
    | timeout => exact Or.inr (htime hw)
  · intro hsp es
    rw [runMain, hstop hsp]

/-- Witness for C3: a sink that reports "not playing" on the first poll
makes the task exit without dequeuing, reaching Complete with the queue
untouched. -/
theorem playback_backpressure_witness :
    runMain [⟨[0], [], false, false⟩] ⟨[[5]], [], .playing, true, 0⟩ =
      (⟨[[5]], [], .complete, true, 0⟩, some .speakerStopped) := by
  have h := (playback_backpressure ⟨[[5]], [], .playing, true, 0⟩
    ⟨[0], [], false, false⟩ (by decide) (by decide)).2.2.1 (by decide) []
  simpa [applyEnv, offerAll, finishTask] using h

/-! ### Pre-buffering phase (audio_playback_task, before the main loop)

`while (prebuffer_count < PREBUFFER_CHUNKS && audio_playback_task_running
&& playback_state == PLAYBACK_RECEIVING)` receives from the ring buffer
with a 5-second timeout.  On a timeout nothing happens and the condition is
re-checked: a bare timeout does NOT leave the loop.  After the loop, fewer
than 2 chunks means "Pre-buffer timeout": `playback_state =
PLAYBACK_COMPLETE` and cleanup with nothing ever played; with both chunks
the state is set to `PLAYBACK_PLAYING` and the two pre-buffered chunks are
queued to the speaker — the first data the sink ever receives. -/

structure PreEnvStep where
  arrivals : List Chunk
  drain : Bool
  stop : Bool
  deriving Repr, DecidableEq

structure PreState where
  queue : List Chunk
  prebuffer_count : ℕ
  stored : List Chunk
  pstate : PB
  running : Bool
  deriving Repr, DecidableEq

/-- Task context right after `audio_start`: fresh ring buffer, state
already set to Receiving, task running. -/
def preInit : PreState := ⟨[], 0, [], .receiving, true⟩

def applyPreEnv (s : PreState) (e : PreEnvStep) : PreState :=
  { s with
    running := s.running && !e.stop,
    pstate := if e.drain then handleAudioComplete s.pstate else s.pstate,
    queue := offerAll s.queue e.arrivals }

inductive PreOut
  | cont (s : PreState)
  | exitLoop (s : PreState)
  | fail (s : PreState)
  deriving Repr, DecidableEq

/-- One pass of the pre-buffer loop: re-check the condition, then one
ring-buffer receive (a `none` outcome — empty queue — is the 5 s receive
timeout, after which the loop simply retries). -/
def preIter (s0 : PreState) (e : PreEnvStep) : PreOut :=
  let s := applyPreEnv s0 e
  if ¬ (s.prebuffer_count < PREBUFFER_CHUNKS ∧ s.running = true ∧
        s.pstate = .receiving) then .exitLoop s
  else
    match s.queue with
    | c :: rest =>
      if PLAYBACK_BUFFER_SIZE < c.length then
        .fail { s with queue := rest, pstate := .complete }
      else
        .cont { s with queue := rest, stored := s.stored ++ [c],
                       prebuffer_count := s.prebuffer_count + 1 }
    | [] => .cont s

/-- Outcome of the pre-buffering phase.  `prebuffered s played` means the
loop completed with both chunks: the state was set to Playing and the two
stored chunks were queued to the sink (the `played` trace).  `aborted`
means the task reached Complete having handed nothing to the sink.
`waiting` means the schedule ran out with the task still blocked inside
the receive loop — nothing played, nothing aborted. -/
inductive PreResult
  | prebuffered (s : PreState) (played : List Chunk)
  | aborted (s : PreState)
  | waiting (s : PreState)
  deriving Repr, DecidableEq

def runPre : List PreEnvStep → PreState → PreResult
  | [], s => .waiting s
  | e :: es, s =>
    match preIter s e with
    | .cont s1 => runPre es s1
    | .fail s1 => .aborted s1
    | .exitLoop s1 =>
      if s1.prebuffer_count < PREBUFFER_CHUNKS then
        .aborted { s1 with pstate := .complete }
      else .prebuffered { s1 with pstate := .playing } s1.stored

/-- The invariant tying the stored play buffers to the dequeue count. -/
def preInv (s : PreState) : Prop :=
  s.stored.length = s.prebuffer_count ∧ s.prebuffer_count ≤ PREBUFFER_CHUNKS

instance (s : PreState) : Decidable (preInv s) := by
  unfold preInv; infer_instance

theorem applyPreEnv_fields (s : PreState) (e : PreEnvStep) :
    (applyPreEnv s e).prebuffer_count = s.prebuffer_count ∧
    (applyPreEnv s e).stored = s.stored := ⟨rfl, rfl⟩

theorem preIter_inv (s : PreState) (e : PreEnvStep) (hinv : preInv s) :
    (∀ s1, preIter s e = .cont s1 → preInv s1) ∧
    (∀ s1, preIter s e = .exitLoop s1 → preInv s1) := by
  obtain ⟨h1, h2⟩ := hinv
  constructor
  · intro s1 h
    unfold preIter at h
    dsimp only at h
    by_cases hc : (applyPreEnv s e).prebuffer_count < PREBUFFER_CHUNKS ∧
        (applyPreEnv s e).running = true ∧ (applyPreEnv s e).pstate = .receiving
    · rw [if_neg (not_not_intro hc)] at h
      rcases hq : (applyPreEnv s e).queue with _ | ⟨c, rest⟩ <;>
        rw [hq] at h <;> dsimp only at h
      · cases h
        exact ⟨h1, h2⟩
      · by_cases hlen : PLAYBACK_BUFFER_SIZE < c.length
        · rw [if_pos hlen] at h; cases h
        · rw [if_neg hlen] at h
          cases h
          have hcc : s.prebuffer_count < PREBUFFER_CHUNKS := hc.1
          refine ⟨?_, ?_⟩
          · show (s.stored ++ [c]).length = s.prebuffer_count + 1
            simp [h1]
          · show s.prebuffer_count + 1 ≤ PREBUFFER_CHUNKS
            omega
    · rw [if_pos hc] at h
      cases h
  · intro s1 h
    unfold preIter at h
    dsimp only at h
    by_cases hc : (applyPreEnv s e).prebuffer_count < PREBUFFER_CHUNKS ∧
        (applyPreEnv s e).running = true ∧ (applyPreEnv s e).pstate = .receiving
    · rw [if_neg (not_not_intro hc)] at h
      rcases hq : (applyPreEnv s e).queue with _ | ⟨c, rest⟩ <;>
        rw [hq] at h <;> dsimp only at h
      · cases h
      · split_ifs at h <;> cases h
    · rw [if_pos hc] at h
      cases h
      exact ⟨h1, h2⟩

theorem preIter_fail (s : PreState) (e : PreEnvStep) (s1 : PreState)
    (h : preIter s e = .fail s1) : s1.pstate = .complete := by
  unfold preIter at h
  dsimp only at h
  by_cases hc : (applyPreEnv s e).prebuffer_count < PREBUFFER_CHUNKS ∧
      (applyPreEnv s e).running = true ∧ (applyPreEnv s e).pstate = .receiving
  · rw [if_neg (not_not_intro hc)] at h
    rcases hq : (applyPreEnv s e).queue with _ | ⟨c, rest⟩ <;>
      rw [hq] at h <;> dsimp only at h
    · cases h
    · split_ifs at h <;> cases h
      rfl
  · rw [if_pos hc] at h
    cases h

theorem runPre_spec (env : List PreEnvStep) :
    ∀ s0, preInv s0 →
      (∀ s played, runPre env s0 = .prebuffered s played →
        played = s.stored ∧ s.prebuffer_count = PREBUFFER_CHUNKS ∧
        played.length = PREBUFFER_CHUNKS ∧ s.pstate = .playing) ∧
      (∀ s, runPre env s0 = .aborted s → s.pstate = .complete) := by
  induction env with
  | nil =>
    intro s0 _
    refine ⟨?_, ?_⟩
    · intro s p h
      cases h
    · intro s h
      cases h
  | cons e es ih =>
    intro s0 hinv
    constructor
    · intro s p h
      rw [runPre] at h
      cases hi : preIter s0 e with
      | cont s1 =>
        rw [hi] at h
        dsimp only at h
        exact (ih s1 ((preIter_inv s0 e hinv).1 s1 hi)).1 s p h
      | fail s1 =>
        rw [hi] at h
        dsimp only at h
        cases h
      | exitLoop s1 =>
        rw [hi] at h
        dsimp only at h
        have hinv1 := (preIter_inv s0 e hinv).2 s1 hi
        by_cases hlt : s1.prebuffer_count < PREBUFFER_CHUNKS
        · rw [if_pos hlt] at h; cases h
        · rw [if_neg hlt] at h
          cases h
          have hc2 : s1.prebuffer_count = PREBUFFER_CHUNKS := by
            have := hinv1.2; omega
          exact ⟨rfl, hc2, by rw [hinv1.1, hc2], rfl⟩
    · intro s h
      rw [runPre] at h
      cases hi : preIter s0 e with
      | cont s1 =>
        rw [hi] at h
        dsimp only at h
        exact (ih s1 ((preIter_inv s0 e hinv).1 s1 hi)).2 s h
      | fail s1 =>
        rw [hi] at h
        dsimp only at h
        cases h
        exact preIter_fail s0 e s hi
      | exitLoop s1 =>
        rw [hi] at h
        dsimp only at h
        by_cases hlt : s1.prebuffer_count < PREBUFFER_CHUNKS
        · rw [if_pos hlt] at h
          cases h
          rfl
        · rw [if_neg hlt] at h
          cases h

/-- Claim C2 (amended): the audio sink never receives data before two
chunks have been dequeued from the ring buffer — a run hands data to the
sink only by completing pre-buffering with exactly `PREBUFFER_CHUNKS = 2`
dequeued chunks; any aborted run reaches Complete having played nothing.
But the abort is NOT triggered by the 5-second receive timeout itself: a
bare timeout re-enters the receive loop (the schedule of pure timeouts
leaves the task waiting forever), and the "Pre-buffer timeout" abort fires
only when the loop is exited early by an external cause — the task being
stopped or the playback state leaving Receiving — with fewer than 2
chunks. -/
theorem prebuffer_gating_amended :
    (∀ env s played, runPre env preInit = .prebuffered s played →
      played = s.stored ∧ s.prebuffer_count = PREBUFFER_CHUNKS ∧
      played.length = PREBUFFER_CHUNKS ∧ s.pstate = .playing) ∧
    (∀ env s, runPre env preInit = .aborted s → s.pstate = .complete) ∧
    (∀ n, runPre (List.replicate n ⟨[], false, false⟩) preInit =
      .waiting preInit) := by
  refine ⟨fun env => (runPre_spec env preInit (by decide)).1,
    fun env => (runPre_spec env preInit (by decide)).2, ?_⟩
  intro n
  induction n with
  | zero => rfl
  | succ n ih =>
    rw [List.replicate_succ, runPre,
      show preIter preInit ⟨[], false, false⟩ = .cont preInit from rfl]
    exact ih

/-- A schedule whose first 5-second receive window expires with zero
chunks (fewer than `PREBUFFER_CHUNKS` arrive within the pre-buffer
timeout), after which two chunks arrive late. -/
def preCexEnv : List PreEnvStep :=
  [⟨[], false, false⟩, ⟨[[1, 1]], false, false⟩,
   ⟨[[2, 2]], false, false⟩, ⟨[], false, false⟩]

/-- Claim C2 counterexample: under `preCexEnv` fewer than 2 chunks arrive
within the pre-buffer receive timeout (the first 5 s receive returns
nothing), yet the task does not reach Complete reporting failure — the
receive loop retries, pre-buffers the two late chunks and proceeds to
play them.  The claimed timeout abort does not exist: only an external
exit (stop, or leaving the Receiving state) aborts. -/
theorem prebuffer_timeout_abort_cex :
    runPre preCexEnv preInit =
      .prebuffered ⟨[], 2, [[1, 1], [2, 2]], .playing, true⟩
        [[1, 1], [2, 2]] ∧
    ([[1, 1], [2, 2]] : List Chunk) ≠ [] :=
  ⟨by decide, by decide⟩

/-- Witness for the amended C2: a task stopped before any chunk arrives
aborts to Complete with nothing played. -/
theorem prebuffer_gating_amended_witness :
    (⟨[], 0, [], .complete, false⟩ : PreState).pstate = .complete :=
  prebuffer_gating_amended.2.1 [⟨[], false, true⟩]
    ⟨[], 0, [], .complete, false⟩ (by decide)

theorem offerAll_shape (cs : List Chunk) :
    ∀ q, ∃ acc, offerAll q cs = q ++ acc ∧ acc.Sublist cs := by
  induction cs with
  | nil => intro q; exact ⟨[], by simp [offerAll], List.nil_sublist _⟩
  | cons c cs ih =>
    intro q
    have hstep : offerAll q (c :: cs) =
        offerAll (buffer_audio_chunk_to_ringbuf true q c).1 cs := rfl
    by_cases hr : ringAccepts q c = true
    · have hofr : (buffer_audio_chunk_to_ringbuf true q c).1 = q ++ [c] := by
        simp [buffer_audio_chunk_to_ringbuf, hr]
      obtain ⟨acc, hacc, hsub⟩ := ih (q ++ [c])
      refine ⟨c :: acc, ?_, List.Sublist.cons₂ c hsub⟩
      rw [hstep, hofr, hacc, List.append_assoc]
      rfl
    · have hofr : (buffer_audio_chunk_to_ringbuf true q c).1 = q := by
        simp [buffer_audio_chunk_to_ringbuf,
          Bool.not_eq_true _ ▸ hr]
      obtain ⟨acc, hacc, hsub⟩ := ih q
      exact ⟨acc, by rw [hstep, hofr, hacc], List.Sublist.cons c hsub⟩

/-- Claim C9: offering to the bounded downlink queue never blocks — each
offer returns at once, either appending the chunk at the back (accepted)
or reporting `false` with the queue contents unchanged, so the newest
chunk is the one dropped on overflow; the sequence of accepted chunks is a
subsequence of the offered sequence in arrival order, and draining the
queue hands exactly those chunks to the audio sink in that order with no
reordering. -/
theorem downlink_queue_policy (cs : List Chunk)
    (hsz : ∀ c ∈ cs, c.length ≤ PLAYBACK_BUFFER_SIZE) :
    (∀ q c, buffer_audio_chunk_to_ringbuf true q c = (q ++ [c], true) ∨
      buffer_audio_chunk_to_ringbuf true q c = (q, false)) ∧
    (∀ q c, ringAccepts q c = false →
      buffer_audio_chunk_to_ringbuf true q c = (q, false)) ∧
    (∃ acc, offerAll [] cs = acc ∧ acc.Sublist cs ∧
      ∃ msf, runMain (List.replicate (acc.length + 1) drainStep)
          ⟨acc, [], .draining, true, 0⟩ =
        (⟨[], acc, .complete, true, msf⟩, some .drainDone)) := by
  refine ⟨?_, ?_, ?_⟩
  · intro q c
    by_cases hr : ringAccepts q c = true
    · exact Or.inl (by simp [buffer_audio_chunk_to_ringbuf, hr])
    · exact Or.inr (by simp [buffer_audio_chunk_to_ringbuf,
        Bool.not_eq_true _ ▸ hr])
  · intro q c hr
    simp [buffer_audio_chunk_to_ringbuf, hr]
  · obtain ⟨acc, hacc, hsub⟩ := offerAll_shape cs []
    refine ⟨acc, by simpa using hacc, hsub, ?_⟩
    exact runMain_drain_full acc [] 0 (fun c hc => hsz c (hsub.subset hc))

/-- Witness for C9 on two small chunks. -/
theorem downlink_queue_policy_witness :
    ∃ acc, offerAll [] [[1], [2]] = acc ∧ acc.Sublist [[1], [2]] ∧
      ∃ msf, runMain (List.replicate (acc.length + 1) drainStep)
          ⟨acc, [], .draining, true, 0⟩ =
        (⟨[], acc, .complete, true, msf⟩, some .drainDone) :=
  (downlink_queue_policy [[1], [2]] (by decide)).2.2

/-- Claim C10: a binary transport frame arriving while the playback state
is Idle or Complete is discarded without touching the ring buffer, the
playback state, or the session state; a frame arriving in Receiving,
Playing or Draining is offered to the downlink queue (and even then the
playback and session states are untouched by the handler). -/
theorem inbound_binary_gating (ds : DeviceState) (ps : PB)
    (bufExists : Bool) (q : List Chunk) (c : Chunk) :
    (ps = .idle ∨ ps = .complete →
      binFrameEvent ds ps bufExists q c = (ds, ps, q)) ∧
    (ps = .receiving ∨ ps = .playing ∨ ps = .draining →
      binFrameEvent ds ps bufExists q c =
        (ds, ps, (buffer_audio_chunk_to_ringbuf bufExists q c).1)) := by
  constructor
  · intro h
    rcases h with h | h <;> subst h <;> rfl
  · intro h
    rcases h with h | h | h <;> subst h <;> rfl

/-- Witness for C10: a frame in the Idle state is dropped, one in the
Playing state is appended to the queue. -/
theorem inbound_binary_gating_witness :
    binFrameEvent .speaking .idle true [[7]] [9] = (.speaking, .idle, [[7]]) ∧
    binFrameEvent .speaking .playing true [[7]] [9] =
      (.speaking, .playing, [[7], [9]]) := by
  constructor
  · exact (inbound_binary_gating .speaking .idle true [[7]] [9]).1
      (Or.inl rfl)
  · have h := (inbound_binary_gating .speaking .playing true [[7]] [9]).2
      (Or.inr (Or.inl rfl))
    rw [h]
    decide

end VoiceCore
